import Mathlib

/-!
A shallow embedding of the FIFO cost-allocation core of the warehouse
application (warehouse_app.py), covering the five relational tables, the
single-sale FIFO recompute, the mass-recompute button handler, and the
stock-availability guard used before inserting a sale line.

Modelling conventions:

* Each SQLite table is a Lean structure per row plus a list of rows; the
  whole database is a record of the five tables plus the sale_fifo
  allocation table.
* Dates are stored as ISO-8601 text in the database and compared with
  string comparison (and with DATE(...), which normalises the same text);
  on ISO text both orders coincide with chronological order, so dates are
  modelled as natural numbers with the usual order.
* Quantities, prices and costs are SQLite REAL values holding exact
  decimal amounts; they are modelled as integers (a fixed-point reading:
  all claims at issue are about order, sums and comparisons, which are
  scale-invariant).
* SQL aggregates (SUM, COALESCE(SUM, 0)) become list sums; joins become
  flatMap over the joined table with a filter; fetchone on a SELECT by id
  becomes List.find?.  An ORDER BY on a key that is total over the rows
  (the batches query sorts on (invoice_date, id), with id the primary key)
  becomes a sort on that key; the date-only ORDER BY of the mass
  recalculation leaves the order of equal-date rows unspecified, so that
  query is modelled as a predicate on the admissible row lists.
* Mutation through the sqlite3 connection becomes explicit state passing:
  every function that executes INSERT or DELETE consumes and returns the
  database value.
-/

/-- Row of the products table (id, article, name, unit). -/
structure ProductRow where
  id : Nat
  article : String
  name : String
  unitName : String
  deriving Repr, DecidableEq

/-- Row of the invoices table (id, invoice_number, invoice_date, supplier).
The invoice date is the receipt date of all of the invoice's batches. -/
structure InvoiceRow where
  id : Nat
  invoiceNumber : String
  invoiceDate : Nat
  supplier : String
  deriving Repr, DecidableEq

/-- Row of the invoice_items table: a purchase line, which is a batch.
Columns: id, invoice_id, product_id, qty, price, vat_percent, total,
total_with_vat. -/
structure InvoiceItemRow where
  id : Nat
  invoiceId : Nat
  productId : Nat
  qty : Int
  price : Int
  vatPercent : Int
  total : Int
  totalWithVat : Int
  deriving Repr, DecidableEq

/-- Row of the sales table (id, sale_number, sale_date, comment). -/
structure SaleRow where
  id : Nat
  saleNumber : String
  saleDate : Nat
  comment : String
  deriving Repr, DecidableEq

/-- Row of the sale_items table (id, sale_id, product_id, qty, price, total). -/
structure SaleItemRow where
  id : Nat
  saleId : Nat
  productId : Nat
  qty : Int
  price : Int
  total : Int
  deriving Repr, DecidableEq

/-- Row of the sale_fifo allocation table (sale_item_id, batch_id, qty,
cost_price).  The AUTOINCREMENT surrogate id is never read back by the
application (rows are only summed by batch_id and deleted by sale_item_id),
so it is not modelled. -/
structure FifoRow where
  saleItemId : Nat
  batchId : Nat
  qty : Int
  costPrice : Int
  deriving Repr, DecidableEq

/-- The database: the five entity tables plus the sale_fifo table. -/
structure DB where
  products : List ProductRow
  invoices : List InvoiceRow
  invoiceItems : List InvoiceItemRow
  sales : List SaleRow
  saleItems : List SaleItemRow
  saleFifo : List FifoRow
  deriving Repr, DecidableEq

/-- SELECT id FROM sale_items WHERE sale_id = saleId. -/
def saleItemIds (db : DB) (saleId : Nat) : List Nat :=
  (db.saleItems.filter fun si => decide (si.saleId = saleId)).map (fun si => si.id)

/-- DELETE FROM sale_fifo WHERE sale_item_id IN (SELECT id FROM sale_items
WHERE sale_id = saleId) — the first statement of recalc_fifo_for_sale. -/
def deleteSaleFifo (db : DB) (saleId : Nat) : DB :=
  { db with saleFifo :=
      db.saleFifo.filter fun r => !(decide (r.saleItemId ∈ saleItemIds db saleId)) }

/-- SELECT sale_date FROM sales WHERE id = saleId, as the full row. -/
def findSale (db : DB) (saleId : Nat) : Option SaleRow :=
  db.sales.find? fun s => decide (s.id = saleId)

/-- SELECT COALESCE(SUM(qty),0) FROM sale_fifo WHERE batch_id = b. -/
def usedQty (fifo : List FifoRow) (b : Nat) : Int :=
  ((fifo.filter fun r => decide (r.batchId = b)).map (fun r => r.qty)).sum

/-- One row of the eligible-batches query of recalc_fifo_for_sale:
SELECT ii.id, ii.qty, ii.price (the invoice date is carried along because
the query sorts on it). -/
structure EligibleBatch where
  batchId : Nat
  qty : Int
  price : Int
  invoiceDate : Nat
  deriving Repr, DecidableEq

/-- The sort key of ORDER BY i.invoice_date, ii.id. -/
def batchLe (a b : EligibleBatch) : Prop :=
  a.invoiceDate < b.invoiceDate ∨ (a.invoiceDate = b.invoiceDate ∧ a.batchId ≤ b.batchId)

instance : DecidableRel batchLe := fun a b => by
  unfold batchLe
  infer_instance

instance : IsTotal EligibleBatch batchLe := by
  constructor
  intro a b
  unfold batchLe
  omega

instance : IsTrans EligibleBatch batchLe := by
  constructor
  intro a b c hab hbc
  unfold batchLe at hab hbc ⊢
  omega

/-- The strict lexicographic order on (receipt date, batch identity). -/
def batchLexLT (a b : EligibleBatch) : Prop :=
  a.invoiceDate < b.invoiceDate ∨ (a.invoiceDate = b.invoiceDate ∧ a.batchId < b.batchId)

instance : DecidableRel batchLexLT := fun a b => by
  unfold batchLexLT
  infer_instance

/-- The FROM/JOIN/WHERE part of the eligible-batches query of
recalc_fifo_for_sale: invoice_items joined to invoices on invoice_id,
restricted to the product and to invoice_date at most the sale date. -/
def eligibleBatchesUnsorted (db : DB) (productId saleDate : Nat) : List EligibleBatch :=
  db.invoiceItems.flatMap fun ii =>
    (db.invoices.filter fun inv =>
        decide (inv.id = ii.invoiceId) && decide (ii.productId = productId) &&
        decide (inv.invoiceDate ≤ saleDate)).map fun inv =>
      { batchId := ii.id, qty := ii.qty, price := ii.price, invoiceDate := inv.invoiceDate }

/-- The full eligible-batches query:
SELECT ii.id, ii.qty, ii.price FROM invoice_items ii JOIN invoices i ON
i.id = ii.invoice_id WHERE ii.product_id = ? AND i.invoice_date <= ?
ORDER BY i.invoice_date, ii.id. -/
def eligibleBatches (db : DB) (productId saleDate : Nat) : List EligibleBatch :=
  List.insertionSort batchLe (eligibleBatchesUnsorted db productId saleDate)

/-- The inner batch loop of recalc_fifo_for_sale for one sale line.
Walks the eligible batches; for each, re-queries the committed-so-far use
of the batch from sale_fifo, skips it when nothing is available, otherwise
inserts min(available, remaining) and stops as soon as remaining <= 0.
Returns the sale_fifo table after the loop together with the final value
of the Python variable remaining (which the source then discards). -/
def allocLine (siId : Nat) (batches : List EligibleBatch) (remaining : Int)
    (fifo : List FifoRow) : List FifoRow × Int :=
  match batches with
  | [] => (fifo, remaining)
  | b :: rest =>
    let used := usedQty fifo b.batchId
    let available := b.qty - used
    if available ≤ 0 then
      allocLine siId rest remaining fifo
    else
      let take := min available remaining
      let fifo2 := fifo ++ [⟨siId, b.batchId, take, b.price⟩]
      let remaining2 := remaining - take
      if remaining2 ≤ 0 then (fifo2, remaining2)
      else allocLine siId rest remaining2 fifo2

/-- The part of recalc_fifo_for_sale after the initial DELETE and its
commit: fetch the sale's lines and its date, then run the allocation loop
for each line in turn against the live sale_fifo table.  If the sale id is
unknown, the Python code raises at fetchone()[0] and leaves the state as
the delete left it. -/
def recalcCore (db1 : DB) (saleId : Nat) : DB :=
  let items := db1.saleItems.filter fun si => decide (si.saleId = saleId)
  match findSale db1 saleId with
  | none => db1
  | some s =>
    let fifoFinal := items.foldl
      (fun fifo si =>
        (allocLine si.id (eligibleBatches db1 si.productId s.saleDate) si.qty fifo).1)
      db1.saleFifo
    { db1 with saleFifo := fifoFinal }

/-- recalc_fifo_for_sale: delete the sale's old allocation rows (and commit),
then rebuild them line by line (and commit). -/
def recalc_fifo_for_sale (db : DB) (saleId : Nat) : DB :=
  recalcCore (deleteSaleFifo db saleId) saleId

/-- The durable states the connection commits during one run of
recalc_fifo_for_sale: conn.commit() right after the DELETE, and
conn.commit() after the allocation loop.  A run that fails between the two
commits leaves the first state behind. -/
def recalcCommittedStates (db : DB) (saleId : Nat) : List DB :=
  [deleteSaleFifo db saleId, recalc_fifo_for_sale db saleId]

/-- The value recalc_fifo_for_sale hands back to its caller: the Python
function ends without a return statement, so the caller receives None —
in particular no shortfall quantity. -/
def recalc_fifo_return (_db : DB) (_saleId : Nat) : Option Int :=
  none

/-- Total quantity of the sale_fifo rows belonging to one sale line. -/
def lineAllocated (fifo : List FifoRow) (siId : Nat) : Int :=
  ((fifo.filter fun r => decide (r.saleItemId = siId)).map (fun r => r.qty)).sum

/-- The AUTOINCREMENT id the next sale_items INSERT receives. -/
def nextSaleItemId (db : DB) : Nat :=
  ((db.saleItems.map (fun si => si.id)).foldl max 0) + 1

/-- add_sale_item: INSERT INTO sale_items (sale_id, product_id, qty, price,
total) VALUES (?, ?, ?, ?, qty*price), commit, then recalculate FIFO for
the sale (the try/except around the recalculation only guards storage
errors, which the embedding has none of). -/
def add_sale_item (db : DB) (saleId productId : Nat) (qty price : Int) : DB :=
  let total := qty * price
  let db2 := { db with saleItems :=
      db.saleItems ++ [⟨nextSaleItemId db, saleId, productId, qty, price, total⟩] }
  recalc_fifo_for_sale db2 saleId

/-- get_available_stock: receipts of the product dated at most on_date minus
sales of the product dated at most on_date; when exclude_sale_id is truthy
(not None and not 0 — Python if exclude_sale_id:), sale lines of that one
sale are left out of the subtracted sum. -/
def get_available_stock (db : DB) (productId onDate : Nat)
    (excludeSaleId : Option Nat) : Int :=
  let inQty :=
    (db.invoiceItems.flatMap fun ii =>
      (db.invoices.filter fun inv =>
          decide (inv.id = ii.invoiceId) && decide (ii.productId = productId) &&
          decide (inv.invoiceDate ≤ onDate)).map fun _ => ii.qty).sum
  let outAll :=
    (db.saleItems.flatMap fun si =>
      (db.sales.filter fun s =>
          decide (s.id = si.saleId) && decide (si.productId = productId) &&
          decide (s.saleDate ≤ onDate)).map fun _ => si.qty).sum
  let outQty :=
    match excludeSaleId with
    | some e =>
      if e ≠ 0 then
        (db.saleItems.flatMap fun si =>
          (db.sales.filter fun s =>
              decide (s.id = si.saleId) && decide (si.productId = productId) &&
              decide (s.saleDate ≤ onDate) && decide (s.id ≠ e)).map fun _ => si.qty).sum
      else outAll
    | none => outAll
  inQty - outQty

/-- safe_add_sale_item: read the sale's date, compute the available stock
excluding this sale, raise ValueError when qty > available (second
component true, state unchanged), otherwise insert the line through
add_sale_item.  An unknown sale id makes the Python code raise at
fetchone()[0] before touching storage; that outcome is likewise modelled
as (db, true). -/
def safe_add_sale_item (db : DB) (saleId productId : Nat) (qty price : Int) : DB × Bool :=
  match findSale db saleId with
  | none => (db, true)
  | some s =>
    let available := get_available_stock db productId s.saleDate (some saleId)
    if available < qty then (db, true)
    else (add_sale_item db saleId productId qty price, false)

/-- Modelled from the spec: availableExcluding(product, date, saleId) =
sum of batch quantities received on or before the date minus the sum of
sale-line quantities sold on or before the date by every sale other than
this one.  Written from the words of the claim, to be compared with
get_available_stock. -/
def spec_availableExcluding (db : DB) (productId onDate saleId : Nat) : Int :=
  (db.invoiceItems.flatMap fun ii =>
    (db.invoices.filter fun inv =>
        decide (inv.id = ii.invoiceId) && decide (ii.productId = productId) &&
        decide (inv.invoiceDate ≤ onDate)).map fun _ => ii.qty).sum -
  (db.saleItems.flatMap fun si =>
    (db.sales.filter fun s =>
        decide (s.id = si.saleId) && decide (si.productId = productId) &&
        decide (s.saleDate ≤ onDate) && decide (s.id ≠ saleId)).map fun _ => si.qty).sum

/-- The cutoff date of the mass FIFO recalculation: date(2026, 1, 1),
rendered in the date model. -/
def FIFO_START_DATE : Nat := 20260101

/-- The sort key of ORDER BY sale_date in the mass-recalculation query. -/
def saleDateLe (a b : SaleRow) : Prop :=
  a.saleDate ≤ b.saleDate

instance : DecidableRel saleDateLe := fun a b => by
  unfold saleDateLe
  infer_instance

/-- The strict order by (sale date, sale identity). -/
def saleLexLT (a b : SaleRow) : Prop :=
  a.saleDate < b.saleDate ∨ (a.saleDate = b.saleDate ∧ a.id < b.id)

instance : DecidableRel saleLexLT := fun a b => by
  unfold saleLexLT
  infer_instance

/-- The row lists that SELECT id, sale_number FROM sales WHERE
DATE(sale_date) >= FIFO_START_DATE ORDER BY sale_date may return, as full
rows.  SQLite fixes the returned multiset (the cutoff filter of the sales
table) and the ascending sale_date order, but leaves the relative order of
rows with equal sale_date unspecified, so the query denotes this predicate
on row lists rather than one list. -/
def isSalesForMassRecalc (db : DB) (rows : List SaleRow) : Prop :=
  rows.Perm (db.sales.filter fun s => decide (FIFO_START_DATE ≤ s.saleDate)) ∧
  rows.Pairwise saleDateLe

instance (db : DB) (rows : List SaleRow) : Decidable (isSalesForMassRecalc db rows) := by
  unfold isSalesForMassRecalc
  infer_instance

/-- The loop of the mass FIFO recalculation button handler: run
recalc_fifo_for_sale on each fetched sale row in turn, in the order the
query returned them.  (Its per-sale try/except only catches storage
errors, which the embedding has none of.) -/
def mass_fifo_recalc (db : DB) (rows : List SaleRow) : DB :=
  rows.foldl (fun d s => recalc_fifo_for_sale d s.id) db

/-- The first eligible batch whose remaining capacity is positive. -/
def firstAvailable (bs : List EligibleBatch) (fifo : List FifoRow) : Option EligibleBatch :=
  bs.find? fun b => decide (0 < b.qty - usedQty fifo b.batchId)

/-- Database of the shortfall scenario: 6 units received, 10 requested. -/
def dbShortfall : DB :=
  { products := [⟨1, "P001", "Test", "pc"⟩]
    invoices := [⟨1, "I1", 10, ""⟩]
    invoiceItems := [⟨1, 1, 1, 6, 5, 0, 30, 30⟩]
    sales := [⟨1, "S-1", 20, ""⟩]
    saleItems := [⟨1, 1, 1, 10, 9, 90⟩]
    saleFifo := [] }

/-- Database with a sale line requesting -5 of a product with 10 on hand. -/
def dbNegQty : DB :=
  { products := [⟨1, "P001", "Test", "pc"⟩]
    invoices := [⟨1, "I1", 5, ""⟩]
    invoiceItems := [⟨1, 1, 1, 10, 2, 0, 20, 20⟩]
    sales := [⟨1, "S-1", 10, ""⟩]
    saleItems := [⟨1, 1, 1, -5, 3, -15⟩]
    saleFifo := [] }

/-- Database with a stale allocation row for sale 1, whose recompute
produces a different row: the old, intermediate and new states are
pairwise distinct. -/
def dbStale : DB :=
  { products := [⟨1, "P001", "Test", "pc"⟩]
    invoices := [⟨1, "I1", 1, ""⟩]
    invoiceItems := [⟨1, 1, 1, 10, 5, 0, 50, 50⟩]
    sales := [⟨1, "S-1", 10, ""⟩]
    saleItems := [⟨1, 1, 1, 3, 7, 21⟩]
    saleFifo := [⟨1, 1, 2, 5⟩] }

/-- Database of the single-batch scenario: one batch of 10 at cost 5, one
sale line of 3. -/
def dbCap : DB :=
  { products := [⟨1, "P001", "Test", "pc"⟩]
    invoices := [⟨1, "INV-1", 10, "Sup"⟩]
    invoiceItems := [⟨1, 1, 1, 10, 5, 0, 50, 50⟩]
    sales := [⟨1, "S-1", 20, ""⟩]
    saleItems := [⟨1, 1, 1, 3, 10, 30⟩]
    saleFifo := [] }

/-- Database with two batches of the same product received on consecutive
dates and a sale line of 8 drawing on both. -/
def dbTwoBatches : DB :=
  { products := [⟨1, "P001", "Test", "pc"⟩]
    invoices := [⟨1, "I1", 10, ""⟩, ⟨2, "I2", 11, ""⟩]
    invoiceItems := [⟨2, 2, 1, 5, 6, 0, 30, 30⟩, ⟨1, 1, 1, 5, 4, 0, 20, 20⟩]
    sales := [⟨1, "S-1", 20, ""⟩]
    saleItems := [⟨1, 1, 1, 8, 9, 72⟩]
    saleFifo := [] }

/-- Database for the date-eligibility witness: one batch received before
the sale's date, one sale line of 3. -/
def dbElig : DB :=
  { products := [⟨1, "P001", "Test", "pc"⟩]
    invoices := [⟨1, "INV-1", 10, "Sup"⟩]
    invoiceItems := [⟨1, 1, 1, 10, 5, 0, 50, 50⟩]
    sales := [⟨1, "S-1", 20, ""⟩]
    saleItems := [⟨1, 1, 1, 3, 10, 30⟩]
    saleFifo := [] }

/-- Database with two sales sharing one date (ids 1 and 2) after the
cutoff and one sale before it. -/
def dbEqualDates : DB :=
  { products := [⟨1, "P001", "Test", "pc"⟩]
    invoices := [⟨1, "I1", 20260102, ""⟩]
    invoiceItems := [⟨1, 1, 1, 10, 5, 0, 50, 50⟩]
    sales := [⟨1, "S-1", 20260105, ""⟩, ⟨2, "S-2", 20260105, ""⟩, ⟨3, "S-0", 20250101, ""⟩]
    saleItems := [⟨1, 1, 1, 4, 9, 36⟩, ⟨2, 2, 1, 4, 9, 36⟩]
    saleFifo := [] }

/-- Database for the guard witness: one batch of 10 on hand, empty
sale_items, one open sale. -/
def dbGuard : DB :=
  { products := [⟨1, "P001", "Test", "pc"⟩]
    invoices := [⟨1, "I1", 10, ""⟩]
    invoiceItems := [⟨1, 1, 1, 10, 5, 0, 50, 50⟩]
    sales := [⟨1, "S-1", 20, ""⟩]
    saleItems := []
    saleFifo := [] }

/-! Basic facts about the embedded queries. -/

lemma usedQty_append (l1 l2 : List FifoRow) (b : Nat) :
    usedQty (l1 ++ l2) b = usedQty l1 b + usedQty l2 b := by
  simp [usedQty, List.filter_append]

lemma usedQty_single (r : FifoRow) (b : Nat) :
    usedQty [r] b = if r.batchId = b then r.qty else 0 := by
  by_cases h : r.batchId = b <;> simp [usedQty, h]

lemma usedQty_eq_zero (l : List FifoRow) (b : Nat) (h : ∀ r ∈ l, r.batchId ≠ b) :
    usedQty l b = 0 := by
  have hf : l.filter (fun r => decide (r.batchId = b)) = [] := by
    rw [List.filter_eq_nil_iff]
    intro r hr
    simp [h r hr]
  simp [usedQty, hf]

lemma lineAllocated_append (l1 l2 : List FifoRow) (siId : Nat) :
    lineAllocated (l1 ++ l2) siId = lineAllocated l1 siId + lineAllocated l2 siId := by
  simp [lineAllocated, List.filter_append]

lemma lineAllocated_single (r : FifoRow) (siId : Nat) :
    lineAllocated [r] siId = if r.saleItemId = siId then r.qty else 0 := by
  by_cases h : r.saleItemId = siId <;> simp [lineAllocated, h]

lemma lineAllocated_eq_zero (l : List FifoRow) (siId : Nat)
    (h : ∀ r ∈ l, r.saleItemId ≠ siId) : lineAllocated l siId = 0 := by
  have hf : l.filter (fun r => decide (r.saleItemId = siId)) = [] := by
    rw [List.filter_eq_nil_iff]
    intro r hr
    simp [h r hr]
  simp [lineAllocated, hf]

lemma mem_eligibleBatchesUnsorted (db : DB) (productId saleDate : Nat) (b : EligibleBatch) :
    b ∈ eligibleBatchesUnsorted db productId saleDate ↔
      ∃ ii ∈ db.invoiceItems, ∃ inv ∈ db.invoices,
        inv.id = ii.invoiceId ∧ ii.productId = productId ∧ inv.invoiceDate ≤ saleDate ∧
        b = ⟨ii.id, ii.qty, ii.price, inv.invoiceDate⟩ := by
  simp only [eligibleBatchesUnsorted, List.mem_flatMap, List.mem_map, List.mem_filter,
    Bool.and_eq_true, decide_eq_true_eq]
  constructor
  · rintro ⟨ii, hii, inv, ⟨hinv, ⟨h1, h2⟩, h3⟩, rfl⟩
    exact ⟨ii, hii, inv, hinv, h1, h2, h3, rfl⟩
  · rintro ⟨ii, hii, inv, hinv, h1, h2, h3, rfl⟩
    exact ⟨ii, hii, inv, ⟨hinv, ⟨h1, h2⟩, h3⟩, rfl⟩

lemma mem_eligibleBatches (db : DB) (productId saleDate : Nat) (b : EligibleBatch) :
    b ∈ eligibleBatches db productId saleDate ↔
      b ∈ eligibleBatchesUnsorted db productId saleDate :=
  (List.perm_insertionSort batchLe _).mem_iff

lemma eligibleBatches_sorted (db : DB) (productId saleDate : Nat) :
    (eligibleBatches db productId saleDate).Pairwise batchLe :=
  List.sorted_insertionSort batchLe _

/-! Shape of the allocation loop: it only ever appends rows, each carrying
the sale line's id and the id of one of the walked batches. -/

lemma allocLine_shape (siId : Nat) :
    ∀ (bs : List EligibleBatch) (rem : Int) (fifo : List FifoRow),
      ∃ new, (allocLine siId bs rem fifo).1 = fifo ++ new ∧
        ∀ r ∈ new, r.saleItemId = siId ∧ r.batchId ∈ bs.map (fun b => b.batchId) := by
  intro bs
  induction bs with
  | nil =>
    intro rem fifo
    exact ⟨[], by simp [allocLine], by simp⟩
  | cons b rest ih =>
    intro rem fifo
    by_cases h1 : b.qty - usedQty fifo b.batchId ≤ 0
    · obtain ⟨new, hnew, hr⟩ := ih rem fifo
      refine ⟨new, ?_, ?_⟩
      · simpa [allocLine, h1] using hnew
      · intro r hrr
        obtain ⟨hs, hb⟩ := hr r hrr
        refine ⟨hs, ?_⟩
        simp only [List.map_cons, List.mem_cons]
        exact Or.inr hb
    · set take := min (b.qty - usedQty fifo b.batchId) rem with htake
      set r0 : FifoRow := ⟨siId, b.batchId, take, b.price⟩ with hr0
      by_cases h2 : rem - take ≤ 0
      · refine ⟨[r0], ?_, ?_⟩
        · simp [allocLine, h1, h2, hr0, htake]
        · intro r hrr
          simp at hrr
          subst hrr
          simp [hr0]
      · obtain ⟨new, hnew, hr⟩ := ih (rem - take) (fifo ++ [r0])
        refine ⟨[r0] ++ new, ?_, ?_⟩
        · have : (allocLine siId (b :: rest) rem fifo).1 =
              (allocLine siId rest (rem - take) (fifo ++ [r0])).1 := by
            simp [allocLine, h1, h2, hr0, htake]
          rw [this, hnew, List.append_assoc]
        · intro r hrr
          rcases List.mem_append.mp hrr with hrr | hrr
          · simp at hrr
            subst hrr
            simp [hr0]
          · obtain ⟨hs, hb⟩ := hr r hrr
            refine ⟨hs, ?_⟩
            simp only [List.map_cons, List.mem_cons]
            exact Or.inr hb

/-! Frame facts: the recompute only ever writes the sale_fifo table. -/

lemma DB_ext (a b : DB) (h1 : a.products = b.products) (h2 : a.invoices = b.invoices)
    (h3 : a.invoiceItems = b.invoiceItems) (h4 : a.sales = b.sales)
    (h5 : a.saleItems = b.saleItems) (h6 : a.saleFifo = b.saleFifo) : a = b := by
  cases a
  cases b
  simp_all

lemma recalcCore_tables (db1 : DB) (saleId : Nat) :
    (recalcCore db1 saleId).products = db1.products ∧
    (recalcCore db1 saleId).invoices = db1.invoices ∧
    (recalcCore db1 saleId).invoiceItems = db1.invoiceItems ∧
    (recalcCore db1 saleId).sales = db1.sales ∧
    (recalcCore db1 saleId).saleItems = db1.saleItems := by
  cases h : findSale db1 saleId with
  | none => simp [recalcCore, h]
  | some s => simp [recalcCore, h]

lemma recalc_fifo_tables (db : DB) (saleId : Nat) :
    (recalc_fifo_for_sale db saleId).products = db.products ∧
    (recalc_fifo_for_sale db saleId).invoices = db.invoices ∧
    (recalc_fifo_for_sale db saleId).invoiceItems = db.invoiceItems ∧
    (recalc_fifo_for_sale db saleId).sales = db.sales ∧
    (recalc_fifo_for_sale db saleId).saleItems = db.saleItems := by
  unfold recalc_fifo_for_sale
  exact recalcCore_tables (deleteSaleFifo db saleId) saleId

lemma saleItemIds_recalcCore (db1 : DB) (s1 s2 : Nat) :
    saleItemIds (recalcCore db1 s1) s2 = saleItemIds db1 s2 := by
  unfold saleItemIds
  rw [(recalcCore_tables db1 s1).2.2.2.2]

/-! Shape of the whole per-sale allocation pass. -/

lemma foldAlloc_shape (db1 : DB) (d : Nat) :
    ∀ (items : List SaleItemRow) (fifo : List FifoRow),
      ∃ new,
        items.foldl
          (fun f si => (allocLine si.id (eligibleBatches db1 si.productId d) si.qty f).1)
          fifo = fifo ++ new ∧
        ∀ r ∈ new, ∃ si ∈ items, r.saleItemId = si.id ∧
          r.batchId ∈ (eligibleBatches db1 si.productId d).map (fun b => b.batchId) := by
  intro items
  induction items with
  | nil =>
    intro fifo
    exact ⟨[], by simp, by simp⟩
  | cons si rest ih =>
    intro fifo
    obtain ⟨n1, h1, hr1⟩ := allocLine_shape si.id (eligibleBatches db1 si.productId d) si.qty fifo
    obtain ⟨n2, h2, hr2⟩ :=
      ih ((allocLine si.id (eligibleBatches db1 si.productId d) si.qty fifo).1)
    refine ⟨n1 ++ n2, ?_, ?_⟩
    · simp only [List.foldl_cons]
      rw [h2, h1, List.append_assoc]
    · intro r hrr
      rcases List.mem_append.mp hrr with h | h
      · obtain ⟨hs, hb⟩ := hr1 r h
        exact ⟨si, by simp, hs, hb⟩
      · obtain ⟨si2, hsi2, hs, hb⟩ := hr2 r h
        exact ⟨si2, by simp [hsi2], hs, hb⟩

lemma recalcCore_saleFifo_shape (db1 : DB) (saleId : Nat) :
    ∃ new, (recalcCore db1 saleId).saleFifo = db1.saleFifo ++ new ∧
      ∀ r ∈ new, r.saleItemId ∈ saleItemIds db1 saleId := by
  cases h : findSale db1 saleId with
  | none => exact ⟨[], by simp [recalcCore, h], by simp⟩
  | some s =>
    obtain ⟨new, hnew, hr⟩ := foldAlloc_shape db1 s.saleDate
      (db1.saleItems.filter fun si => decide (si.saleId = saleId)) db1.saleFifo
    refine ⟨new, ?_, ?_⟩
    · simpa [recalcCore, h] using hnew
    · intro r hrr
      obtain ⟨si, hsi, hs, _⟩ := hr r hrr
      rw [hs]
      unfold saleItemIds
      exact List.mem_map_of_mem _ hsi

/-! The DELETE step absorbs both a repeated DELETE and a preceding
allocation pass for the same sale. -/

lemma deleteSaleFifo_deleteSaleFifo (db : DB) (saleId : Nat) :
    deleteSaleFifo (deleteSaleFifo db saleId) saleId = deleteSaleFifo db saleId := by
  apply DB_ext
  · rfl
  · rfl
  · rfl
  · rfl
  · rfl
  · show (db.saleFifo.filter
        (fun r => !(decide (r.saleItemId ∈ saleItemIds db saleId)))).filter
        (fun r => !(decide (r.saleItemId ∈ saleItemIds db saleId))) =
      db.saleFifo.filter (fun r => !(decide (r.saleItemId ∈ saleItemIds db saleId)))
    rw [List.filter_filter]
    apply List.filter_congr
    intro r _
    rw [Bool.and_self]

lemma deleteSaleFifo_recalcCore (db1 : DB) (saleId : Nat) :
    deleteSaleFifo (recalcCore db1 saleId) saleId = deleteSaleFifo db1 saleId := by
  obtain ⟨new, hnew, hr⟩ := recalcCore_saleFifo_shape db1 saleId
  have ht := recalcCore_tables db1 saleId
  apply DB_ext
  · exact ht.1
  · exact ht.2.1
  · exact ht.2.2.1
  · exact ht.2.2.2.1
  · exact ht.2.2.2.2
  · show (recalcCore db1 saleId).saleFifo.filter _ = db1.saleFifo.filter _
    rw [saleItemIds_recalcCore, hnew, List.filter_append]
    have hz : new.filter
        (fun r => !(decide (r.saleItemId ∈ saleItemIds db1 saleId))) = [] := by
      rw [List.filter_eq_nil_iff]
      intro r hrr
      simp [hr r hrr]
    rw [hz, List.append_nil]

/-! Coverage of one sale line: what the loop allocates plus what is left of
the Python variable remaining always accounts exactly for the request. -/

lemma allocLine_line_sum (siId : Nat) :
    ∀ (bs : List EligibleBatch) (rem : Int) (fifo : List FifoRow),
      lineAllocated (allocLine siId bs rem fifo).1 siId + (allocLine siId bs rem fifo).2 =
        lineAllocated fifo siId + rem := by
  intro bs
  induction bs with
  | nil =>
    intro rem fifo
    simp [allocLine]
  | cons b rest ih =>
    intro rem fifo
    by_cases h1 : b.qty - usedQty fifo b.batchId ≤ 0
    · simpa [allocLine, h1] using ih rem fifo
    · set take := min (b.qty - usedQty fifo b.batchId) rem with htake
      set r0 : FifoRow := ⟨siId, b.batchId, take, b.price⟩ with hr0
      have hsingle : lineAllocated [r0] siId = take := by
        simp [lineAllocated_single, hr0]
      by_cases h2 : rem - take ≤ 0
      · have heq : allocLine siId (b :: rest) rem fifo = (fifo ++ [r0], rem - take) := by
          simp [allocLine, h1, h2, hr0, htake]
        rw [heq]
        show lineAllocated (fifo ++ [r0]) siId + (rem - take) = lineAllocated fifo siId + rem
        rw [lineAllocated_append, hsingle]
        omega
      · have heq : allocLine siId (b :: rest) rem fifo =
            allocLine siId rest (rem - take) (fifo ++ [r0]) := by
          simp [allocLine, h1, h2, hr0, htake]
        rw [heq, ih (rem - take) (fifo ++ [r0]), lineAllocated_append, hsingle]
        omega

lemma allocLine_rem_nonneg (siId : Nat) :
    ∀ (bs : List EligibleBatch) (rem : Int) (fifo : List FifoRow), 0 ≤ rem →
      0 ≤ (allocLine siId bs rem fifo).2 := by
  intro bs
  induction bs with
  | nil =>
    intro rem fifo h0
    simpa [allocLine] using h0
  | cons b rest ih =>
    intro rem fifo h0
    by_cases h1 : b.qty - usedQty fifo b.batchId ≤ 0
    · simpa [allocLine, h1] using ih rem fifo h0
    · set take := min (b.qty - usedQty fifo b.batchId) rem with htake
      have hle : take ≤ rem := min_le_right _ _
      by_cases h2 : rem - take ≤ 0
      · have heq : allocLine siId (b :: rest) rem fifo =
            (fifo ++ [⟨siId, b.batchId, take, b.price⟩], rem - take) := by
          simp [allocLine, h1, h2, htake]
        rw [heq]
        simp only []
        omega
      · have heq : allocLine siId (b :: rest) rem fifo =
            allocLine siId rest (rem - take) (fifo ++ [⟨siId, b.batchId, take, b.price⟩]) := by
          simp [allocLine, h1, h2, htake]
        rw [heq]
        exact ih _ _ (by omega)

/-- C3 (amended): for a sale line with non-negative requested quantity,
run against a sale_fifo state holding no rows of that line yet, the
allocation loop produces rows summing to the requested quantity minus a
non-negative shortfall (the final value of remaining); the shortfall is
only this internal variable — recalc_fifo_for_sale returns None to its
caller (see recalc_fifo_return), so the shortfall is discarded rather than
returned. -/
theorem line_coverage_shortfall (siId : Nat) (bs : List EligibleBatch) (rem : Int)
    (fifo : List FifoRow) (h0 : 0 ≤ rem) (hf : ∀ r ∈ fifo, r.saleItemId ≠ siId) :
    lineAllocated (allocLine siId bs rem fifo).1 siId + (allocLine siId bs rem fifo).2 = rem ∧
    0 ≤ (allocLine siId bs rem fifo).2 := by
  have h := allocLine_line_sum siId bs rem fifo
  rw [lineAllocated_eq_zero fifo siId hf] at h
  constructor
  · omega
  · exact allocLine_rem_nonneg siId bs rem fifo h0

/-- C3 (counterexample to the claim as stated): on dbShortfall the line's
shortfall is 4 (allocations sum to 6 of the requested 10), yet the value
recalc_fifo_for_sale returns to its caller is None — the shortfall is not
returned as an outcome. -/
theorem shortfall_not_returned_cx :
    recalc_fifo_return dbShortfall 1 = none ∧
    (allocLine 1 (eligibleBatches (deleteSaleFifo dbShortfall 1) 1 20) 10
        (deleteSaleFifo dbShortfall 1).saleFifo).2 = 4 ∧
    lineAllocated (recalc_fifo_for_sale dbShortfall 1).saleFifo 1 = 6 := by
  decide

/-- Witness for line_coverage_shortfall at the shortfall scenario. -/
theorem line_coverage_shortfall_witness :
    lineAllocated (allocLine 1 (eligibleBatches dbShortfall 1 20) 10 []).1 1 +
      (allocLine 1 (eligibleBatches dbShortfall 1 20) 10 []).2 = 10 ∧
    0 ≤ (allocLine 1 (eligibleBatches dbShortfall 1 20) 10 []).2 :=
  line_coverage_shortfall 1 (eligibleBatches dbShortfall 1 20) 10 [] (by decide) (by decide)

/-! Behaviour of the loop on a negative request. -/

/-- C6 (amended): a strictly negative requested quantity is not rejected
and raises no error: the loop inserts a single allocation row carrying the
whole negative quantity against the first eligible batch with positive
remaining capacity, or inserts nothing when no such batch exists. -/
theorem negative_qty_not_rejected (siId : Nat) (bs : List EligibleBatch) (rem : Int)
    (fifo : List FifoRow) (h : rem < 0) :
    allocLine siId bs rem fifo =
      match firstAvailable bs fifo with
      | none => (fifo, rem)
      | some b => (fifo ++ [⟨siId, b.batchId, rem, b.price⟩], 0) := by
  induction bs with
  | nil => simp [allocLine, firstAvailable]
  | cons b rest ih =>
    by_cases h1 : b.qty - usedQty fifo b.batchId ≤ 0
    · have hp : ¬ ((fun c => decide (0 < c.qty - usedQty fifo c.batchId)) b = true) := by
        simp only [decide_eq_true_eq]
        omega
      have hf : firstAvailable (b :: rest) fifo = firstAvailable rest fifo := by
        unfold firstAvailable
        rw [List.find?_cons_of_neg rest hp]
      rw [hf]
      have heq : allocLine siId (b :: rest) rem fifo = allocLine siId rest rem fifo := by
        simp [allocLine, h1]
      rw [heq]
      exact ih
    · have hav : 0 < b.qty - usedQty fifo b.batchId := by omega
      have hp : (fun c => decide (0 < c.qty - usedQty fifo c.batchId)) b = true := by
        simp only [decide_eq_true_eq]
        omega
      have hf : firstAvailable (b :: rest) fifo = some b := by
        unfold firstAvailable
        rw [List.find?_cons_of_pos rest hp]
      rw [hf]
      have htake : min (b.qty - usedQty fifo b.batchId) rem = rem :=
        min_eq_right (by omega)
      have heq : allocLine siId (b :: rest) rem fifo =
          (fifo ++ [⟨siId, b.batchId, rem, b.price⟩], 0) := by
        simp [allocLine, h1, htake]
      exact heq

/-- C6 (counterexample to the claim as stated): recomputing a sale whose
line requests -5 does not fail and does mutate storage — it inserts an
allocation row of quantity -5. -/
theorem negative_qty_allocated_cx :
    (recalc_fifo_for_sale dbNegQty 1).saleFifo = [⟨1, 1, -5, 2⟩] ∧ (-5 : Int) < 0 := by
  decide

/-- Witness for negative_qty_not_rejected on dbNegQty. -/
theorem negative_qty_not_rejected_witness :
    allocLine 1 (eligibleBatches dbNegQty 1 10) (-5) [] = ([⟨1, 1, -5, 2⟩], 0) := by
  rw [negative_qty_not_rejected 1 (eligibleBatches dbNegQty 1 10) (-5) [] (by decide)]
  decide

/-- C5: recomputing the same sale twice with no intervening data change
produces the identical database — in particular the identical sale_fifo
rows (same batch ids, quantities and costs, in the same order) for every
sale line of the sale. -/
theorem recalc_idempotent (db : DB) (saleId : Nat) :
    recalc_fifo_for_sale (recalc_fifo_for_sale db saleId) saleId =
      recalc_fifo_for_sale db saleId := by
  unfold recalc_fifo_for_sale
  rw [deleteSaleFifo_recalcCore, deleteSaleFifo_deleteSaleFifo]

/-- C10: recalc_fifo_for_sale writes only the sale_fifo table — the
products, invoices, invoice_items, sales and sale_items tables are the
same before and after the call, for every database and sale id. -/
theorem recalc_frame_effect (db : DB) (saleId : Nat) :
    (recalc_fifo_for_sale db saleId).products = db.products ∧
    (recalc_fifo_for_sale db saleId).invoices = db.invoices ∧
    (recalc_fifo_for_sale db saleId).invoiceItems = db.invoiceItems ∧
    (recalc_fifo_for_sale db saleId).sales = db.sales ∧
    (recalc_fifo_for_sale db saleId).saleItems = db.saleItems :=
  recalc_fifo_tables db saleId

/-- C4 (amended): the recompute is not one atomic unit: it commits twice,
first the bare deletion of the sale's old allocation rows, then the fully
rebuilt state.  The first committed state carries no allocation row of any
line of the sale, so a failure between the two commits leaves the sale
with no allocations — in general neither the old nor the new set. -/
theorem recalc_commit_sequence (db : DB) (saleId : Nat) :
    recalcCommittedStates db saleId =
      [deleteSaleFifo db saleId, recalc_fifo_for_sale db saleId] ∧
    ∀ r ∈ (deleteSaleFifo db saleId).saleFifo, ¬ r.saleItemId ∈ saleItemIds db saleId := by
  refine ⟨rfl, ?_⟩
  intro r hr
  simp only [deleteSaleFifo, List.mem_filter, Bool.not_eq_eq_eq_not, Bool.not_true,
    decide_eq_false_iff_not] at hr
  exact hr.2

/-- C4 (counterexample to the claim as stated): on dbStale the state
committed by the first conn.commit() — old rows deleted, no new rows yet —
is an observable state that is neither the complete old allocation set nor
the complete new one. -/
theorem recalc_midstate_cx :
    deleteSaleFifo dbStale 1 ∈ recalcCommittedStates dbStale 1 ∧
    deleteSaleFifo dbStale 1 ≠ dbStale ∧
    deleteSaleFifo dbStale 1 ≠ recalc_fifo_for_sale dbStale 1 := by
  decide

/-! Capacity: the loop never lets the allocations of a batch exceed the
batch's received quantity, because every insert is bounded by the live
available figure it just re-queried. -/

lemma allocLine_used_le (siId : Nat) (T : List InvoiceItemRow) :
    ∀ (bs : List EligibleBatch) (rem : Int) (fifo : List FifoRow),
      (∀ b ∈ bs, ∀ ii ∈ T, ii.id = b.batchId → ii.qty = b.qty) →
      (∀ ii ∈ T, usedQty fifo ii.id ≤ ii.qty) →
      ∀ ii ∈ T, usedQty (allocLine siId bs rem fifo).1 ii.id ≤ ii.qty := by
  intro bs
  induction bs with
  | nil =>
    intro rem fifo _ hInv
    simpa [allocLine] using hInv
  | cons b rest ih =>
    intro rem fifo hT hInv
    have hTrest : ∀ c ∈ rest, ∀ ii ∈ T, ii.id = c.batchId → ii.qty = c.qty :=
      fun c hc => hT c (List.mem_cons_of_mem b hc)
    by_cases h1 : b.qty - usedQty fifo b.batchId ≤ 0
    · have heq : (allocLine siId (b :: rest) rem fifo).1 = (allocLine siId rest rem fifo).1 := by
        simp [allocLine, h1]
      rw [heq]
      exact ih rem fifo hTrest hInv
    · set take := min (b.qty - usedQty fifo b.batchId) rem with htake
      set r0 : FifoRow := ⟨siId, b.batchId, take, b.price⟩ with hr0
      have htab : take ≤ b.qty - usedQty fifo b.batchId := min_le_left _ _
      have hInv2 : ∀ ii ∈ T, usedQty (fifo ++ [r0]) ii.id ≤ ii.qty := by
        intro ii hii
        rw [usedQty_append, usedQty_single]
        by_cases hid : r0.batchId = ii.id
        · have hb2 : b.batchId = ii.id := by rw [← hid, hr0]
          have hq2 : ii.qty = b.qty := hT b (List.mem_cons_self b rest) ii hii hb2.symm
          have hused : usedQty fifo ii.id = usedQty fifo b.batchId := by rw [hb2]
          have hr0q : r0.qty = take := by rw [hr0]
          rw [if_pos hid, hr0q, hused, hq2]
          omega
        · rw [if_neg hid]
          have := hInv ii hii
          omega
      by_cases h2 : rem - take ≤ 0
      · have heq : (allocLine siId (b :: rest) rem fifo).1 = fifo ++ [r0] := by
          simp [allocLine, h1, h2, hr0, htake]
        rw [heq]
        exact hInv2
      · have heq : (allocLine siId (b :: rest) rem fifo).1 =
            (allocLine siId rest (rem - take) (fifo ++ [r0])).1 := by
          simp [allocLine, h1, h2, hr0, htake]
        rw [heq]
        exact ih (rem - take) (fifo ++ [r0]) hTrest hInv2

lemma foldAlloc_used_le (db1 : DB) (d : Nat) (T : List InvoiceItemRow)
    (hT : ∀ pid, ∀ b ∈ eligibleBatches db1 pid d, ∀ ii ∈ T, ii.id = b.batchId → ii.qty = b.qty) :
    ∀ (items : List SaleItemRow) (fifo : List FifoRow),
      (∀ ii ∈ T, usedQty fifo ii.id ≤ ii.qty) →
      ∀ ii ∈ T,
        usedQty
          (items.foldl
            (fun f si => (allocLine si.id (eligibleBatches db1 si.productId d) si.qty f).1)
            fifo) ii.id ≤ ii.qty := by
  intro items
  induction items with
  | nil =>
    intro fifo hInv
    simpa using hInv
  | cons si rest ih =>
    intro fifo hInv
    simp only [List.foldl_cons]
    exact ih _ (allocLine_used_le si.id T _ si.qty fifo (hT si.productId) hInv)

lemma eligibleBatches_qty_eq (db : DB) (saleId : Nat)
    (hnodup : (db.invoiceItems.map (fun ii => ii.id)).Nodup) :
    ∀ pid d, ∀ b ∈ eligibleBatches (deleteSaleFifo db saleId) pid d,
      ∀ ii ∈ db.invoiceItems, ii.id = b.batchId → ii.qty = b.qty := by
  intro pid d b hb ii hii hid
  rw [mem_eligibleBatches, mem_eligibleBatchesUnsorted] at hb
  obtain ⟨ii0, hii0, inv, hinv, h1, h2, h3, rfl⟩ := hb
  have hii0db : ii0 ∈ db.invoiceItems := hii0
  have hii_eq : ii = ii0 :=
    List.inj_on_of_nodup_map hnodup hii hii0db (by simpa using hid)
  rw [hii_eq]

/-- C1: after a successful recompute of any sale, every invoice_items row
(batch) has the sum of sale_fifo quantities referencing it bounded by its
received quantity — assuming the recomputed sale's lines request
non-negative quantities, the bound already held for the allocation rows of
the other sales (the rows surviving the initial DELETE), and batch ids are
unique (the table's PRIMARY KEY). -/
theorem fifo_capacity_invariant (db : DB) (saleId : Nat)
    (hnodup : (db.invoiceItems.map (fun ii => ii.id)).Nodup)
    (hq : ∀ si ∈ db.saleItems, si.saleId = saleId → 0 ≤ si.qty)
    (hprior : ∀ ii ∈ db.invoiceItems,
      usedQty (deleteSaleFifo db saleId).saleFifo ii.id ≤ ii.qty) :
    ∀ ii ∈ db.invoiceItems, usedQty (recalc_fifo_for_sale db saleId).saleFifo ii.id ≤ ii.qty := by
  unfold recalc_fifo_for_sale
  cases h : findSale (deleteSaleFifo db saleId) saleId with
  | none =>
    have heq : (recalcCore (deleteSaleFifo db saleId) saleId).saleFifo =
        (deleteSaleFifo db saleId).saleFifo := by
      simp [recalcCore, h]
    rw [heq]
    exact hprior
  | some s =>
    have heq : (recalcCore (deleteSaleFifo db saleId) saleId).saleFifo =
        ((deleteSaleFifo db saleId).saleItems.filter
            (fun si => decide (si.saleId = saleId))).foldl
          (fun f si =>
            (allocLine si.id
              (eligibleBatches (deleteSaleFifo db saleId) si.productId s.saleDate)
              si.qty f).1)
          (deleteSaleFifo db saleId).saleFifo := by
      simp [recalcCore, h]
    rw [heq]
    exact foldAlloc_used_le (deleteSaleFifo db saleId) s.saleDate db.invoiceItems
      (fun pid => eligibleBatches_qty_eq db saleId hnodup pid s.saleDate) _ _ hprior

/-- Witness for fifo_capacity_invariant on dbCap. -/
theorem fifo_capacity_invariant_witness :
    usedQty (recalc_fifo_for_sale dbCap 1).saleFifo 1 ≤ 10 :=
  fifo_capacity_invariant dbCap 1 (by decide) (by decide) (by decide)
    ⟨1, 1, 1, 10, 5, 0, 50, 50⟩ (by decide)

/-! FIFO order: within one line, a batch only receives units once every
batch strictly earlier in the (receipt date, batch id) order is exhausted. -/

lemma allocLine_order (siId : Nat) :
    ∀ (bs : List EligibleBatch) (rem : Int) (fifo new : List FifoRow),
      bs.Pairwise batchLe → ((bs.map fun c => c.batchId)).Nodup →
      (allocLine siId bs rem fifo).1 = fifo ++ new →
      ∀ A ∈ bs, ∀ B ∈ bs, batchLexLT A B →
      (∃ r ∈ new, r.batchId = B.batchId ∧ 0 < r.qty) →
      A.qty ≤ usedQty (allocLine siId bs rem fifo).1 A.batchId := by
  intro bs
  induction bs with
  | nil =>
    intro rem fifo new _ _ _ A hA
    exact absurd hA (List.not_mem_nil A)
  | cons b rest ih =>
    intro rem fifo new hpw hnd heq A hA B hB hAB hrow
    have hbnotin : ¬ b.batchId ∈ rest.map (fun c => c.batchId) := by
      simp only [List.map_cons, List.nodup_cons] at hnd
      exact hnd.1
    have hndrest : (rest.map (fun c => c.batchId)).Nodup := by
      simp only [List.map_cons, List.nodup_cons] at hnd
      exact hnd.2
    have hpwrest : rest.Pairwise batchLe := (List.pairwise_cons.mp hpw).2
    have hble : ∀ c ∈ rest, batchLe b c := (List.pairwise_cons.mp hpw).1
    have hmem_rest : ∀ C : EligibleBatch, C ∈ b :: rest →
        C.batchId ∈ rest.map (fun c => c.batchId) → C ∈ rest := by
      intro C hC hCid
      rcases List.mem_cons.mp hC with hCb | hCr
      · exact absurd (hCb ▸ hCid) hbnotin
      · exact hCr
    have hmem_head : ∀ C : EligibleBatch, C ∈ b :: rest → C.batchId = b.batchId → C = b := by
      intro C hC hCid
      rcases List.mem_cons.mp hC with hCb | hCr
      · exact hCb
      · exact absurd (hCid ▸ List.mem_map_of_mem (fun c => c.batchId) hCr) hbnotin
    by_cases h1 : b.qty - usedQty fifo b.batchId ≤ 0
    · have heq2 : (allocLine siId (b :: rest) rem fifo).1 = (allocLine siId rest rem fifo).1 := by
        simp [allocLine, h1]
      rw [heq2] at heq ⊢
      obtain ⟨new2, hnew2, hids2⟩ := allocLine_shape siId rest rem fifo
      have hne : new = new2 := List.append_cancel_left (heq.symm.trans hnew2)
      obtain ⟨r, hr, hrB, hrq⟩ := hrow
      rw [hne] at hr
      have hB_rest : B ∈ rest := hmem_rest B hB (by rw [← hrB]; exact (hids2 r hr).2)
      by_cases hAb : A = b
      · subst hAb
        rw [hnew2, usedQty_append]
        have hz : usedQty new2 A.batchId = 0 := by
          apply usedQty_eq_zero
          intro r2 hr2 hcon
          exact hbnotin (by rw [← hcon]; exact (hids2 r2 hr2).2)
        rw [hz]
        omega
      · have hA_rest : A ∈ rest := by
          rcases List.mem_cons.mp hA with h | h
          · exact absurd h hAb
          · exact h
        exact ih rem fifo new2 hpwrest hndrest hnew2 A hA_rest B hB_rest hAB ⟨r, hr, hrB, hrq⟩
    · set take := min (b.qty - usedQty fifo b.batchId) rem with htake
      set r0 : FifoRow := ⟨siId, b.batchId, take, b.price⟩ with hr0
      have hr0b : r0.batchId = b.batchId := by rw [hr0]
      by_cases h2 : rem - take ≤ 0
      · have heq2 : (allocLine siId (b :: rest) rem fifo).1 = fifo ++ [r0] := by
          simp [allocLine, h1, h2, hr0, htake]
        rw [heq2] at heq
        have hne : new = [r0] := (List.append_cancel_left heq).symm
        obtain ⟨r, hr, hrB, hrq⟩ := hrow
        rw [hne] at hr
        have hrr0 : r = r0 := by simpa using hr
        have hBb : B = b := hmem_head B hB (by rw [← hrB, hrr0, hr0b])
        exfalso
        rcases List.mem_cons.mp hA with hA2 | hA2
        · rw [hA2, hBb] at hAB
          unfold batchLexLT at hAB
          omega
        · have hba := hble A hA2
          rw [hBb] at hAB
          unfold batchLe at hba
          unfold batchLexLT at hAB
          omega
      · have htake_eq : take = b.qty - usedQty fifo b.batchId := by
          rcases le_total (b.qty - usedQty fifo b.batchId) rem with hc | hc
          · rw [htake]
            exact min_eq_left hc
          · exfalso
            have h3 : min (b.qty - usedQty fifo b.batchId) rem = rem := min_eq_right hc
            rw [htake, h3] at h2
            omega
        have heq2 : (allocLine siId (b :: rest) rem fifo).1 =
            (allocLine siId rest (rem - take) (fifo ++ [r0])).1 := by
          simp [allocLine, h1, h2, hr0, htake]
        rw [heq2] at heq ⊢
        obtain ⟨new2, hnew2, hids2⟩ := allocLine_shape siId rest (rem - take) (fifo ++ [r0])
        have hne : new = r0 :: new2 := by
          rw [hnew2, List.append_assoc] at heq
          have h4 := List.append_cancel_left heq
          simpa using h4.symm
        obtain ⟨r, hr, hrB, hrq⟩ := hrow
        rw [hne] at hr
        rcases List.mem_cons.mp hr with hr2 | hr2
        · have hBb : B = b := hmem_head B hB (by rw [← hrB, hr2, hr0b])
          exfalso
          rcases List.mem_cons.mp hA with hA2 | hA2
          · rw [hA2, hBb] at hAB
            unfold batchLexLT at hAB
            omega
          · have hba := hble A hA2
            rw [hBb] at hAB
            unfold batchLe at hba
            unfold batchLexLT at hAB
            omega
        · have hB_rest : B ∈ rest := hmem_rest B hB (by rw [← hrB]; exact (hids2 r hr2).2)
          by_cases hAb : A = b
          · subst hAb
            rw [hnew2, usedQty_append, usedQty_append, usedQty_single]
            have hz : usedQty new2 A.batchId = 0 := by
              apply usedQty_eq_zero
              intro r2 hr2b hcon
              exact hbnotin (by rw [← hcon]; exact (hids2 r2 hr2b).2)
            have hif : (if r0.batchId = A.batchId then r0.qty else 0) = take := by
              rw [hr0]
              simp
            rw [hz, hif]
            omega
          · have hA_rest : A ∈ rest := by
              rcases List.mem_cons.mp hA with h | h
              · exact absurd h hAb
              · exact h
            exact ih (rem - take) (fifo ++ [r0]) new2 hpwrest hndrest hnew2 A hA_rest B hB_rest
              hAB ⟨r, hr2, hrB, hrq⟩

/-- C2: within one run, a sale line walks the eligible batches of its
product in the (receipt date, batch id) order of the SQL ORDER BY; if any
unit of the line lands on batch B, then every eligible batch A strictly
earlier in that order ends the line with its remaining capacity exhausted
(its allocations reach its received quantity) — assuming batch ids among
the eligible rows are unique (the table's PRIMARY KEY). -/
theorem fifo_order_law (db : DB) (productId saleDate siId : Nat) (remaining : Int)
    (fifo new : List FifoRow)
    (hnodup : ((eligibleBatches db productId saleDate).map (fun c => c.batchId)).Nodup)
    (heq : (allocLine siId (eligibleBatches db productId saleDate) remaining fifo).1 =
      fifo ++ new)
    (A : EligibleBatch) (hA : A ∈ eligibleBatches db productId saleDate)
    (B : EligibleBatch) (hB : B ∈ eligibleBatches db productId saleDate)
    (hAB : batchLexLT A B)
    (hrow : ∃ r ∈ new, r.batchId = B.batchId ∧ 0 < r.qty) :
    A.qty ≤
      usedQty (allocLine siId (eligibleBatches db productId saleDate) remaining fifo).1
        A.batchId :=
  allocLine_order siId (eligibleBatches db productId saleDate) remaining fifo new
    (eligibleBatches_sorted db productId saleDate) hnodup heq A hA B hB hAB hrow

/-- Witness for fifo_order_law on dbTwoBatches: the second batch received a
positive allocation, so the first one is exhausted at its quantity 5. -/
theorem fifo_order_law_witness :
    (5 : Int) ≤ usedQty (allocLine 1 (eligibleBatches dbTwoBatches 1 20) 8 []).1 1 :=
  fifo_order_law dbTwoBatches 1 20 1 8 [] [⟨1, 1, 5, 4⟩, ⟨1, 2, 3, 6⟩] (by decide) (by decide)
    ⟨1, 5, 4, 10⟩ (by decide) ⟨2, 5, 6, 11⟩ (by decide) (by decide) (by decide)

/-- C7: every allocation row the recompute produces for a line of the sale
references a batch drawn from the eligible-batches query, whose parent
invoice date — the batch's receipt date — is at most the sale's date. -/
theorem allocation_date_eligibility (db : DB) (saleId : Nat) (s : SaleRow)
    (hs : findSale db saleId = some s) :
    ∀ r ∈ (recalc_fifo_for_sale db saleId).saleFifo,
      r.saleItemId ∈ saleItemIds db saleId →
      ∃ ii ∈ db.invoiceItems, ∃ inv ∈ db.invoices,
        ii.id = r.batchId ∧ inv.id = ii.invoiceId ∧ inv.invoiceDate ≤ s.saleDate := by
  intro r hr hrs
  have hs1 : findSale (deleteSaleFifo db saleId) saleId = some s := hs
  unfold recalc_fifo_for_sale at hr
  have hcore : (recalcCore (deleteSaleFifo db saleId) saleId).saleFifo =
      ((deleteSaleFifo db saleId).saleItems.filter
          (fun si => decide (si.saleId = saleId))).foldl
        (fun f si =>
          (allocLine si.id
            (eligibleBatches (deleteSaleFifo db saleId) si.productId s.saleDate)
            si.qty f).1)
        (deleteSaleFifo db saleId).saleFifo := by
    simp [recalcCore, hs1]
  rw [hcore] at hr
  obtain ⟨new, hnew, hrows⟩ := foldAlloc_shape (deleteSaleFifo db saleId) s.saleDate
    ((deleteSaleFifo db saleId).saleItems.filter (fun si => decide (si.saleId = saleId)))
    (deleteSaleFifo db saleId).saleFifo
  rw [hnew] at hr
  rcases List.mem_append.mp hr with hold | hnewmem
  · exfalso
    have : r ∈ db.saleFifo.filter
        (fun r2 => !(decide (r2.saleItemId ∈ saleItemIds db saleId))) := hold
    rw [List.mem_filter] at this
    simp only [Bool.not_eq_eq_eq_not, Bool.not_true, decide_eq_false_iff_not] at this
    exact this.2 hrs
  · obtain ⟨si, _, _, hbid⟩ := hrows r hnewmem
    rw [List.mem_map] at hbid
    obtain ⟨b, hb, hbeq⟩ := hbid
    rw [mem_eligibleBatches, mem_eligibleBatchesUnsorted] at hb
    obtain ⟨ii, hii, inv, hinv, h1, _, h3, rfl⟩ := hb
    refine ⟨ii, hii, inv, hinv, ?_, h1, h3⟩
    simpa using hbeq

/-- Witness for allocation_date_eligibility on dbElig, at the row the
recompute produces. -/
theorem allocation_date_eligibility_witness :
    ∃ ii ∈ dbElig.invoiceItems, ∃ inv ∈ dbElig.invoices,
      ii.id = (1 : Nat) ∧ inv.id = ii.invoiceId ∧ inv.invoiceDate ≤ 20 :=
  allocation_date_eligibility dbElig 1 ⟨1, "S-1", 20, ""⟩ (by decide)
    ⟨1, 1, 3, 5⟩ (by decide) (by decide)

/-! The mass-recalculation ordering: the SELECT fixes which sales are
picked and their ascending date order; the order of sales sharing a date
is whatever the query happened to return. -/

/-- C8 (counterexample to the claim as stated): in dbEqualDates, sales 1
and 2 share the date 20260105; the list [sale 2, sale 1] is an admissible
result of the mass-recalculation query (right multiset, ascending dates),
yet it is not in ascending (sale date, sale id) order — ORDER BY sale_date
alone guarantees no tie-break by sale identity. -/
theorem mass_recalc_tiebreak_cx :
    isSalesForMassRecalc dbEqualDates
      [⟨2, "S-2", 20260105, ""⟩, ⟨1, "S-1", 20260105, ""⟩] ∧
    ¬ (([(⟨2, "S-2", 20260105, ""⟩ : SaleRow),
        ⟨1, "S-1", 20260105, ""⟩]).Pairwise saleLexLT) := by
  decide

/-- C8 (amended): the mass FIFO recalculation handler folds
recalc_fifo_for_sale over the query result one sale at a time; any
admissible query result holds exactly the sales dated on or after
FIFO_START_DATE and is in ascending sale-date order, and all admissible
results agree on their date sequence — but the relative order of sales
sharing a date is unspecified (ORDER BY sale_date gives no tie-break by
sale identity). -/
theorem mass_recalc_order (db : DB) (rows : List SaleRow)
    (hsel : isSalesForMassRecalc db rows) :
    mass_fifo_recalc db rows =
      rows.foldl (fun d s => recalc_fifo_for_sale d s.id) db ∧
    (∀ s ∈ rows, s ∈ db.sales ∧ FIFO_START_DATE ≤ s.saleDate) ∧
    (∀ s ∈ db.sales, FIFO_START_DATE ≤ s.saleDate → s ∈ rows) ∧
    rows.Pairwise saleDateLe ∧
    (∀ rows2, isSalesForMassRecalc db rows2 →
      rows.map (fun s => s.saleDate) = rows2.map (fun s => s.saleDate)) := by
  obtain ⟨hperm, hsort⟩ := hsel
  refine ⟨rfl, ?_, ?_, hsort, ?_⟩
  · intro s hsrows
    have hs2 := hperm.mem_iff.mp hsrows
    rw [List.mem_filter] at hs2
    exact ⟨hs2.1, by simpa using hs2.2⟩
  · intro s hsdb hdate
    apply hperm.mem_iff.mpr
    rw [List.mem_filter]
    exact ⟨hsdb, by simpa using hdate⟩
  · intro rows2 hsel2
    obtain ⟨hperm2, hsort2⟩ := hsel2
    have h1 : (rows.map (fun s => s.saleDate)).Sorted (fun x y : Nat => x ≤ y) :=
      List.Pairwise.map _ (fun _ _ hab => hab) hsort
    have h2 : (rows2.map (fun s => s.saleDate)).Sorted (fun x y : Nat => x ≤ y) :=
      List.Pairwise.map _ (fun _ _ hab => hab) hsort2
    exact List.eq_of_perm_of_sorted
      ((hperm.trans hperm2.symm).map (fun s => s.saleDate)) h1 h2

/-- Witness for mass_recalc_order on dbEqualDates: the two admissible
orders of the equal-date sales carry the same date sequence. -/
theorem mass_recalc_order_witness :
    (([(⟨1, "S-1", 20260105, ""⟩ : SaleRow), ⟨2, "S-2", 20260105, ""⟩]).map
        (fun s => s.saleDate)) =
      (([(⟨2, "S-2", 20260105, ""⟩ : SaleRow), ⟨1, "S-1", 20260105, ""⟩]).map
        (fun s => s.saleDate)) :=
  (mass_recalc_order dbEqualDates
      [⟨1, "S-1", 20260105, ""⟩, ⟨2, "S-2", 20260105, ""⟩] (by decide)).2.2.2.2
    [⟨2, "S-2", 20260105, ""⟩, ⟨1, "S-1", 20260105, ""⟩] (by decide)

/-! The pre-insert availability guard. -/

lemma get_available_some_eq_spec (db : DB) (productId onDate saleId : Nat)
    (h0 : saleId ≠ 0) :
    get_available_stock db productId onDate (some saleId) =
      spec_availableExcluding db productId onDate saleId := by
  simp [get_available_stock, spec_availableExcluding, h0]

/-- C9: with the sale present (and a non-zero sale id, as AUTOINCREMENT
assigns), safe_add_sale_item raises ValueError and leaves the database
untouched whenever the requested quantity exceeds
availableExcluding(product, sale date, this sale) — receipts dated at most
the sale date minus the quantities sold by every other sale dated at most
the sale date — and otherwise inserts the line into sale_items (and then
recomputes the sale's FIFO allocations). -/
theorem safe_add_guard (db : DB) (saleId productId : Nat) (qty price : Int) (s : SaleRow)
    (hs : findSale db saleId = some s) (h0 : saleId ≠ 0) :
    (spec_availableExcluding db productId s.saleDate saleId < qty →
      safe_add_sale_item db saleId productId qty price = (db, true)) ∧
    (qty ≤ spec_availableExcluding db productId s.saleDate saleId →
      (safe_add_sale_item db saleId productId qty price).2 = false ∧
      (safe_add_sale_item db saleId productId qty price).1.saleItems =
        db.saleItems ++ [⟨nextSaleItemId db, saleId, productId, qty, price, qty * price⟩]) := by
  have havail : get_available_stock db productId s.saleDate (some saleId) =
      spec_availableExcluding db productId s.saleDate saleId :=
    get_available_some_eq_spec db productId s.saleDate saleId h0
  constructor
  · intro hlt
    have hcond : get_available_stock db productId s.saleDate (some saleId) < qty := by
      rw [havail]
      exact hlt
    simp [safe_add_sale_item, hs, hcond]
  · intro hge
    have hcond : ¬ (get_available_stock db productId s.saleDate (some saleId) < qty) := by
      rw [havail]
      omega
    have hres : safe_add_sale_item db saleId productId qty price =
        (add_sale_item db saleId productId qty price, false) := by
      simp [safe_add_sale_item, hs, hcond]
    rw [hres]
    refine ⟨rfl, ?_⟩
    show (add_sale_item db saleId productId qty price).saleItems = _
    unfold add_sale_item
    rw [(recalc_fifo_tables _ saleId).2.2.2.2]

/-- Witness for safe_add_guard on dbGuard: 3 of 10 available is accepted
and the line is appended. -/
theorem safe_add_guard_witness :
    (safe_add_sale_item dbGuard 1 1 3 7).2 = false ∧
    (safe_add_sale_item dbGuard 1 1 3 7).1.saleItems =
      dbGuard.saleItems ++ [⟨nextSaleItemId dbGuard, 1, 1, 3, 7, 3 * 7⟩] :=
  (safe_add_guard dbGuard 1 1 3 7 ⟨1, "S-1", 20, ""⟩ (by decide) (by decide)).2 (by decide)
